import Mathlib

/-!
Shallow embedding of the allele-matching algebra and the reconciliation and
merge engine of the gprim repository (file annotation.py).

Pandas data frames are modelled as ordered lists of rows; a row is a key
(the SNP column) together with the list of its remaining cells, in column
order.  The dictionary COMPLEMENT is modelled as a function into Option
(a lookup of a character outside the alphabet yields none, modelling the
KeyError the Python dict raises).  The precomputed constant sets
STRAND_AMBIGUOUS, VALID_SNPS, MATCH_ALLELES and FLIP_ALLELES are built by
the same products and filters the source uses, as Lean lists.
-/

/-- The four DNA bases (keys of the complement dictionary). -/
def BASES : List Char := ['A', 'T', 'C', 'G']

/-- Complement dictionary: A-T, T-A, C-G, G-C; a lookup of any other
character yields none (the dict raises a KeyError there). -/
def COMPLEMENT (c : Char) : Option Char :=
  if c = 'A' then some 'T'
  else if c = 'T' then some 'A'
  else if c = 'C' then some 'G'
  else if c = 'G' then some 'C'
  else none

/-- Strand ambiguity of an allele pair: the first allele equals the
complement of the second (the source tabulates this for all ordered pairs
of distinct bases). -/
def STRAND_AMBIGUOUS (p : Char × Char) : Bool :=
  some p.1 == COMPLEMENT p.2

/-- Valid SNPs: ordered pairs of bases that are distinct and not strand
ambiguous. -/
def VALID_SNPS : List (Char × Char) :=
  (BASES.product BASES).filter (fun p => p.1 != p.2 && !(STRAND_AMBIGUOUS p))

/-- The no-flip disjuncts of the match condition on a 4-tuple
(a1, a2, b1, b2): strand and ref match, or ref match with strand flip. -/
def noflipCond : Char × Char × Char × Char → Bool
  | (a1, a2, b1, b2) =>
    (a1 == b1 && a2 == b2) ||
    (some a1 == COMPLEMENT b1 && some a2 == COMPLEMENT b2)

/-- The flip disjuncts of the match condition on a 4-tuple
(a1, a2, b1, b2): ref flip with strand match, or ref flip with strand
flip. -/
def flipCond : Char × Char × Char × Char → Bool
  | (a1, a2, b1, b2) =>
    (a1 == b2 && a2 == b1) ||
    (some a1 == COMPLEMENT b2 && some a2 == COMPLEMENT b1)

/-- The full match condition of the source: the four disjuncts written out
as in the construction of MATCH_ALLELES. -/
def matchCond : Char × Char × Char × Char → Bool
  | (a1, a2, b1, b2) =>
    (a1 == b1 && a2 == b2) ||
    (some a1 == COMPLEMENT b1 && some a2 == COMPLEMENT b2) ||
    (a1 == b2 && a2 == b1) ||
    (some a1 == COMPLEMENT b2 && some a2 == COMPLEMENT b1)

/-- MATCH_ALLELES: all 4-tuples built from two valid SNPs whose pairs agree
up to a reference-allele flip and/or a strand flip. -/
def MATCH_ALLELES : List (Char × Char × Char × Char) :=
  ((VALID_SNPS.product VALID_SNPS).map
    (fun pq => (pq.1.1, pq.1.2, pq.2.1, pq.2.2))).filter matchCond

/-- FLIP_ALLELES: the subset of MATCH_ALLELES whose pairs agree via a
reference-allele flip (with or without a strand flip). -/
def FLIP_ALLELES : List (Char × Char × Char × Char) :=
  MATCH_ALLELES.filter flipCond

/-- A data-frame row: the value of the key column (SNP) plus the remaining
cells in column order. -/
structure MRow (α : Type) where
  key : String
  vals : List α
deriving DecidableEq

/-- A data frame: its number of non-key columns (the schema, needed to fill
nulls in a left join) and its rows in order. -/
structure Table (α : Type) where
  ncols : Nat
  rows : List (MRow α)
deriving DecidableEq

/-- The join modes of smart_merge that the repository exercises. -/
inductive How
  | inner
  | left
deriving DecidableEq

/-- The fatal error smart_merge signals when fail_if_nonmatching is set and
the fast-path check fails (the source prints a message and calls exit). -/
inductive MergeError
  | AlignmentExpectationError
deriving DecidableEq

/-- Drop the cells sitting at the column positions listed in drop,
counting positions from i. -/
def keepIdxFrom (drop : List Nat) (i : Nat) : List α → List α
  | [] => []
  | a :: as =>
    if drop.contains i then keepIdxFrom drop (i + 1) as
    else a :: keepIdxFrom drop (i + 1) as

/-- Drop the cells at the column positions listed in drop. -/
def keepIdx (drop : List Nat) (xs : List α) : List α :=
  keepIdxFrom drop 0 xs

/-- The in-place column drop smart_merge applies to every secondary frame
(d.drop(drop_from_y, axis=1, inplace=True)), by column position. -/
def dropColsTable (drop : List Nat) (t : Table α) : Table α :=
  ⟨(keepIdx drop (List.range t.ncols)).length,
   t.rows.map (fun r => ⟨r.key, keepIdx drop r.vals⟩)⟩

/-- The key column of a frame, in row order. -/
def keysOf (t : Table α) : List String := t.rows.map MRow.key

/-- Column-wise concatenation of two row-aligned frames, keeping the key of
the first (pd.concat with axis=1 after dropping the key of the second). -/
def concat2 (x d : Table α) : Table α :=
  ⟨x.ncols + d.ncols,
   List.zipWith (fun r s => MRow.mk r.key (r.vals ++ s.vals)) x.rows d.rows⟩

/-- One step of the slow path: pd.merge(x, d, how=how, on=key).  Every row
of x is paired with each row of d carrying the same key; under a left join
a row of x without a partner survives, with the columns of d filled by the
null value na. -/
def mergeSlow (how : How) (na : α) (x d : Table α) : Table α :=
  ⟨x.ncols + d.ncols,
   x.rows.flatMap (fun r =>
     let ms := (d.rows.filter (fun s => s.key == r.key))
     if ms.isEmpty && how == How.left then
       [MRow.mk r.key (r.vals ++ List.replicate d.ncols na)]
     else ms.map (fun s => MRow.mk r.key (r.vals ++ s.vals)))⟩

/-- smart_merge of annotation.py: drop the requested columns from every
secondary frame in place, check whether every secondary has the same keys
in the same order as the primary, and either concatenate column-wise (fast
path), fail (fail_if_nonmatching on a mismatch), or fall back to a key
join.  The first component of the result is the list of secondary frames
as the caller sees them after the call (the in-place drop applied). -/
def smart_merge (x : Table α) (y : List (Table α)) (how : How)
    (fail_if_nonmatching : Bool) (drop_from_y : List Nat) (na : α) :
    List (Table α) × Except MergeError (Table α) :=
  let y2 := y.map (dropColsTable drop_from_y)
  let matching := y2.all (fun d => keysOf x == keysOf d)
  (y2,
   if matching then Except.ok (y2.foldl concat2 x)
   else if fail_if_nonmatching then
     Except.error MergeError.AlignmentExpectationError
   else Except.ok (y2.foldl (mergeSlow how na) x))

/-- A cell of the merged frame inside reconciled_to: an allele character
(columns A1, A2, A1_df, A2_df), a numeric value (the value columns), or the
null a left join fills in for an absent row. -/
inductive Cell
  | ch (c : Char)
  | num (q : Rat)
  | na
deriving DecidableEq

/-- A row of the reference frame: SNP key and the allele columns A1, A2. -/
structure RefRow where
  key : String
  a1 : Char
  a2 : Char
deriving DecidableEq

/-- A row of the data frame: SNP key, allele columns A1, A2, and the value
columns (colnames), in order. -/
structure DataRow where
  key : String
  a1 : Char
  a2 : Char
  vals : List Rat
deriving DecidableEq

/-- A row of the frame reconciled_to returns: the key and alleles of the
reference row plus the reconciled value columns (A1_df and A2_df already
dropped). -/
structure OutRow where
  key : String
  a1 : Char
  a2 : Char
  vals : List Rat
deriving DecidableEq

/-- The reference frame as the merged-frame layout sees it: key, A1, A2. -/
def refToTable (ref : List RefRow) : Table Cell :=
  ⟨2, ref.map (fun r => MRow.mk r.key [Cell.ch r.a1, Cell.ch r.a2])⟩

/-- The fresh frame reconciled_to selects out of the data frame and hands
to smart_merge: the columns SNP, A1, A2 (renamed A1_df, A2_df) and the
ncols value columns. -/
def dfSelect (ncols : Nat) (df : List DataRow) : Table Cell :=
  ⟨ncols + 2,
   df.map (fun d =>
     MRow.mk d.key ([Cell.ch d.a1, Cell.ch d.a2] ++ d.vals.map Cell.num))⟩

/-- Read a numeric cell back as a rational (total on the cells the value
columns of a matched row actually hold). -/
def cellToRat : Cell → Rat
  | Cell.num q => q
  | _ => 0

/-- The uppercased 4-character key a1234 the source builds from the columns
A1, A2, A1_df, A2_df of a merged row. -/
def upper4 (a1 a2 b1 b2 : Char) : Char × Char × Char × Char :=
  (a1.toUpper, a2.toUpper, b1.toUpper, b2.toUpper)

/-- The per-row policy of reconciled_to on one row of the merged frame:
a row missing from the data frame (A1_df null) gets missing_val in every
value column; a present row whose uppercased 4-tuple is not in
MATCH_ALLELES gets missing_val in every value column; a matched row passes
its values through, negated when signed is set and the tuple is in
FLIP_ALLELES.  The alleles kept are the reference ones (A1_df and A2_df
are dropped from the output). -/
def reconcileRow (signed : Bool) (missing_val : Rat) (ncols : Nat) :
    MRow Cell → OutRow
  | ⟨k, Cell.ch a1 :: Cell.ch a2 :: Cell.na :: _⟩ =>
      ⟨k, a1, a2, List.replicate ncols missing_val⟩
  | ⟨k, Cell.ch a1 :: Cell.ch a2 :: Cell.ch b1 :: Cell.ch b2 :: vs⟩ =>
      if upper4 a1 a2 b1 b2 ∈ MATCH_ALLELES then
        if signed && decide (upper4 a1 a2 b1 b2 ∈ FLIP_ALLELES) then
          ⟨k, a1, a2, vs.map (fun c => -(cellToRat c))⟩
        else ⟨k, a1, a2, vs.map cellToRat⟩
      else ⟨k, a1, a2, List.replicate ncols missing_val⟩
  | ⟨k, _⟩ => ⟨k, '-', '-', List.replicate ncols missing_val⟩

/-- The rows of the merged frame reconciled_to builds: smart_merge of the
reference frame with the fresh selection of the data frame, how=left,
fail_if_nonmatching false, no columns dropped. -/
def joinedRows (ref : List RefRow) (df : List DataRow) (ncols : Nat) :
    List (MRow Cell) :=
  match (smart_merge (refToTable ref) [dfSelect ncols df] How.left false []
      Cell.na).2 with
  | Except.ok t => t.rows
  | Except.error _ => []

/-- reconciled_to of annotation.py: merge the data frame onto the reference
frame by SNP, then apply the per-row policy, and drop A1_df, A2_df. -/
def reconciled_to (ref : List RefRow) (df : List DataRow) (ncols : Nat)
    (signed : Bool) (missing_val : Rat) : List OutRow :=
  (joinedRows ref df ncols).map (reconcileRow signed missing_val ncols)

/-- The missing mask of the source: A1_df (third cell of the merged row) is
null. -/
def rowMissing : MRow Cell → Bool
  | ⟨_, _ :: _ :: Cell.na :: _⟩ => true
  | _ => false

/-- The uppercased allele 4-tuple of a merged row, when its four allele
cells are characters. -/
def rowTuple : MRow Cell → Option (Char × Char × Char × Char)
  | ⟨_, Cell.ch a1 :: Cell.ch a2 :: Cell.ch b1 :: Cell.ch b2 :: _⟩ =>
      some (upper4 a1 a2 b1 b2)
  | _ => none

/-- The match mask of the source: present and the 4-tuple lies in
MATCH_ALLELES. -/
def rowMatch (m : MRow Cell) : Bool :=
  !(rowMissing m) &&
    (match rowTuple m with
     | some s => decide (s ∈ MATCH_ALLELES)
     | none => false)

/-- The flip mask of the source: matched and the 4-tuple lies in
FLIP_ALLELES. -/
def rowFlip (m : MRow Cell) : Bool :=
  rowMatch m &&
    (match rowTuple m with
     | some s => decide (s ∈ FLIP_ALLELES)
     | none => false)

/-- The mismatch diagnostic count of reconciled_to: rows present in both
frames whose alleles do not match. -/
def n_mismatch (ref : List RefRow) (df : List DataRow) (ncols : Nat) : Nat :=
  (joinedRows ref df ncols).countP (fun m => !(rowMissing m) && !(rowMatch m))

/-- The flip diagnostic count of reconciled_to: matched rows whose tuple is
in FLIP_ALLELES. -/
def n_flip (ref : List RefRow) (df : List DataRow) (ncols : Nat) : Nat :=
  (joinedRows ref df ncols).countP rowFlip

/-- An abstract row of the merged frame: the reference key and alleles,
and the data of the joined row when the key was present in the data
frame. -/
structure JRow where
  key : String
  a1 : Char
  a2 : Char
  dat : Option (Char × Char × List Rat)
deriving DecidableEq

/-- The join smart_merge performs inside reconciled_to, stated directly on
the typed rows: positional pairing when the key columns agree (fast path),
otherwise a left key join. -/
def joinRows (ref : List RefRow) (df : List DataRow) : List JRow :=
  if ref.map RefRow.key = df.map DataRow.key then
    List.zipWith
      (fun r d => JRow.mk r.key r.a1 r.a2 (some (d.a1, d.a2, d.vals))) ref df
  else
    ref.flatMap (fun r =>
      let ms := df.filter (fun d => d.key == r.key)
      if ms.isEmpty then [JRow.mk r.key r.a1 r.a2 none]
      else ms.map (fun d => JRow.mk r.key r.a1 r.a2 (some (d.a1, d.a2, d.vals))))

/-- Layout of an abstract joined row in the merged frame. -/
def jrowToM (ncols : Nat) (j : JRow) : MRow Cell :=
  match j.dat with
  | none =>
      ⟨j.key, [Cell.ch j.a1, Cell.ch j.a2] ++ List.replicate (ncols + 2) Cell.na⟩
  | some (b1, b2, vs) =>
      ⟨j.key, [Cell.ch j.a1, Cell.ch j.a2, Cell.ch b1, Cell.ch b2]
        ++ vs.map Cell.num⟩

/-- Default row used to state positional properties via getD. -/
def dfltRow {α : Type} : MRow α := ⟨"", []⟩

example : VALID_SNPS.length = 8 := by decide

example : MATCH_ALLELES.length = 32 := by decide

example : FLIP_ALLELES.length = 16 := by decide

example : ('A', 'G', 'G', 'A') ∈ FLIP_ALLELES := by decide

example : ('A', 'T', 'A', 'T') ∉ MATCH_ALLELES := by decide

example :
    (smart_merge (α := Rat) ⟨1, [⟨"rs1", [5]⟩, ⟨"rs2", [6]⟩]⟩
      [⟨1, [⟨"rs1", [7]⟩, ⟨"rs3", [8]⟩]⟩] How.inner true [] 0).2
      = Except.error MergeError.AlignmentExpectationError := rfl

example :
    (smart_merge (α := Rat) ⟨1, [⟨"rs1", [5]⟩]⟩ [⟨1, [⟨"rs1", [7]⟩]⟩]
      How.inner false [] 0).2 = Except.ok ⟨2, [⟨"rs1", [5, 7]⟩]⟩ := rfl

example :
    reconciled_to [⟨"rs1", 'A', 'G'⟩] [⟨"rs1", 'G', 'A', [1/2]⟩] 1 true 0
      = [⟨"rs1", 'A', 'G', [-(1/2)]⟩] := rfl

example :
    reconciled_to [⟨"rs2", 'A', 'T'⟩] [⟨"rs2", 'A', 'T', [3/10]⟩] 1 true 0
      = [⟨"rs2", 'A', 'T', [0]⟩] := by decide

example :
    reconciled_to [⟨"rs3", 'C', 'G'⟩] [] 1 true 0
      = [⟨"rs3", 'C', 'G', [0]⟩] := by decide

example :
    reconciled_to [⟨"rs4", 'A', 'C'⟩] [⟨"rs4", 'C', 'T', [1]⟩] 1 true 0
      = [⟨"rs4", 'A', 'C', [0]⟩] := by decide

example :
    reconciled_to [⟨"rs1", 'A', 'G'⟩] [⟨"rs1", 'G', 'A', [1/2]⟩] 1 false 0
      = [⟨"rs1", 'A', 'G', [1/2]⟩] := rfl

theorem keepIdxFrom_nil (xs : List α) : ∀ i : Nat, keepIdxFrom [] i xs = xs := by
  induction xs with
  | nil => intro i; rfl
  | cons a as ih => intro i; simp [keepIdxFrom, ih]

theorem dropColsTable_nil (t : Table α) : dropColsTable [] t = t := by
  cases t with
  | mk n rows =>
    have h : ∀ r : MRow α, MRow.mk r.key (keepIdx [] r.vals) = r := by
      intro r; simp [keepIdx, keepIdxFrom_nil]
    simp [dropColsTable, keepIdx, keepIdxFrom_nil, h]

theorem keysOf_refToTable (ref : List RefRow) :
    keysOf (refToTable ref) = ref.map RefRow.key := by
  simp [keysOf, refToTable, List.map_map]

theorem keysOf_dfSelect (ncols : Nat) (df : List DataRow) :
    keysOf (dfSelect ncols df) = df.map DataRow.key := by
  simp [keysOf, dfSelect, List.map_map]

theorem filter_dfrow (df : List DataRow) (k : String) :
    (df.map (fun d =>
      MRow.mk d.key ([Cell.ch d.a1, Cell.ch d.a2] ++ d.vals.map Cell.num))).filter
        (fun s => s.key == k)
      = (df.filter (fun d => d.key == k)).map (fun d =>
          MRow.mk d.key ([Cell.ch d.a1, Cell.ch d.a2] ++ d.vals.map Cell.num)) := by
  induction df with
  | nil => rfl
  | cons d ds ih =>
    simp only [List.map_cons, List.filter_cons]
    by_cases hk : d.key == k
    · rw [if_pos hk, if_pos hk]
      exact congrArg (List.cons _) ih
    · rw [if_neg hk, if_neg hk]
      exact ih

/-- Bridge: the merged frame reconciled_to builds through smart_merge is
exactly the abstract join, row for row. -/
theorem joinedRows_eq (ref : List RefRow) (df : List DataRow) (ncols : Nat) :
    joinedRows ref df ncols = (joinRows ref df).map (jrowToM ncols) := by
  unfold joinedRows smart_merge
  simp only [List.map_cons, List.map_nil, dropColsTable_nil, List.all_cons,
    List.all_nil, Bool.and_true, keysOf_refToTable, keysOf_dfSelect]
  by_cases h : ref.map RefRow.key = df.map DataRow.key
  · rw [if_pos (by simp [h])]
    unfold joinRows
    rw [if_pos h]
    simp only [List.foldl_cons, List.foldl_nil, concat2, refToTable, dfSelect,
      List.zipWith_map, List.map_zipWith]
    rfl
  · rw [if_neg (by simp [h])]
    unfold joinRows
    rw [if_neg h]
    simp only [List.foldl_cons, List.foldl_nil, mergeSlow, refToTable, dfSelect,
      List.flatMap_map, List.map_flatMap]
    apply List.flatMap_congr
    intro r _
    dsimp only [Function.comp]
    rw [filter_dfrow]
    cases hf : df.filter (fun d => d.key == r.key) with
    | nil => simp [jrowToM]
    | cons d ds =>
      simp only [List.map_cons, List.isEmpty_cons, Bool.false_and,
        Bool.false_eq_true, if_false, List.map_map]
      rfl

/-- Mapping a function that only looks at the left component over a zip of
two lists of equal length is a map over the left list. -/
theorem map_zipWith_left {a b c d : Type} (f : a → b → c) (g : c → d)
    (g2 : a → d) (hfg : ∀ x y, g (f x y) = g2 x) :
    ∀ (xs : List a) (ys : List b), ys.length = xs.length →
      (List.zipWith f xs ys).map g = xs.map g2 := by
  intro xs
  induction xs with
  | nil => intro ys h; simp
  | cons x xs ih =>
    intro ys h
    cases ys with
    | nil => simp at h
    | cons y ys =>
      simp only [List.zipWith_cons_cons, List.map_cons, hfg]
      rw [ih ys (by simpa using h)]

/-- Zipping a list with a zip of itself collapses to a single zip. -/
theorem zipWith_zipWith_same {a b c d : Type} (f : a → c → d) (g : a → b → c) :
    ∀ (l : List a) (l2 : List b),
      List.zipWith f l (List.zipWith g l l2)
        = List.zipWith (fun x y => f x (g x y)) l l2 := by
  intro l
  induction l with
  | nil => intro l2; rfl
  | cons x xs ih =>
    intro l2
    cases l2 with
    | nil => rfl
    | cons y ys => simp only [List.zipWith_cons_cons]; rw [ih]

/-- Pointwise congruence for zipWith, with membership of the left list
available. -/
theorem zipWith_congr_left {a b c : Type} {f g : a → b → c} :
    ∀ (l : List a) (l2 : List b), (∀ x ∈ l, ∀ y, f x y = g x y) →
      List.zipWith f l l2 = List.zipWith g l l2 := by
  intro l
  induction l with
  | nil => intro l2 h; rfl
  | cons x xs ih =>
    intro l2 h
    cases l2 with
    | nil => rfl
    | cons y ys =>
      simp only [List.zipWith_cons_cons]
      rw [h x (by simp), ih ys (fun e he => h e (by simp [he]))]

/-- A flatMap all of whose fibers are singletons is a map. -/
theorem flatMap_singleton_of {a b : Type} {F : a → List b} {g : a → b} :
    ∀ l : List a, (∀ x ∈ l, F x = [g x]) → l.flatMap F = l.map g := by
  intro l
  induction l with
  | nil => intro h; rfl
  | cons x xs ih =>
    intro h
    rw [List.flatMap_cons, h x (by simp), ih (fun e he => h e (by simp [he]))]
    rfl

/-- Every per-pair image failing a predicate makes the count over the zip
zero. -/
theorem countP_zipWith_zero {a b c : Type} {p : c → Bool} {f : a → b → c} :
    ∀ (l : List a) (l2 : List b), (∀ x ∈ l, ∀ y, p (f x y) = false) →
      (List.zipWith f l l2).countP p = 0 := by
  intro l
  induction l with
  | nil => intro l2 h; rfl
  | cons x xs ih =>
    intro l2 h
    cases l2 with
    | nil => rfl
    | cons y ys =>
      simp only [List.zipWith_cons_cons, List.countP_cons, h x (by simp)]
      simp [ih ys (fun e he => h e (by simp [he]))]

theorem match_alleles_swap_mem :
    ∀ t ∈ MATCH_ALLELES, (t.2.2.1, t.2.2.2, t.1, t.2.1) ∈ MATCH_ALLELES := by
  decide

/-- Claim C8: the allele-pair match relation is symmetric: the 4-tuple
a1 a2 b1 b2 is in MATCH_ALLELES exactly when b1 b2 a1 a2 is, hence
alleles_match(p, q) = alleles_match(q, p) for all pairs. -/
theorem gprim_C8_match_symmetric (a b c d : Char) :
    (a, b, c, d) ∈ MATCH_ALLELES ↔ (c, d, a, b) ∈ MATCH_ALLELES :=
  ⟨fun h => match_alleles_swap_mem (a, b, c, d) h,
   fun h => match_alleles_swap_mem (c, d, a, b) h⟩

/-- Claim C10: on every tuple of MATCH_ALLELES the no-flip disjuncts and
the flip disjuncts are mutually exclusive, so the decision to negate a
matched row is unambiguous. -/
theorem gprim_C10_flip_unambiguous :
    ∀ t ∈ MATCH_ALLELES, !(noflipCond t && flipCond t) := by
  decide

/-- Witness for C10 at the concrete matched tuple (A, G, A, G). -/
theorem gprim_C10_flip_unambiguous_witness :
    !(noflipCond ('A', 'G', 'A', 'G') && flipCond ('A', 'G', 'A', 'G')) :=
  gprim_C10_flip_unambiguous ('A', 'G', 'A', 'G') (by decide)

theorem match_alleles_valid :
    ∀ t ∈ MATCH_ALLELES,
      (t.1, t.2.1) ∈ VALID_SNPS ∧ (t.2.2.1, t.2.2.2) ∈ VALID_SNPS := by
  decide

theorem match_alleles_not_ambiguous :
    ∀ t ∈ MATCH_ALLELES,
      STRAND_AMBIGUOUS (t.1, t.2.1) = false ∧
      STRAND_AMBIGUOUS (t.2.2.1, t.2.2.2) = false := by
  decide

/-- Claim C3: every tuple of MATCH_ALLELES is built from two valid pairs
(distinct alleles, not strand ambiguous); consequently a joined row whose
reference pair or data pair is strand ambiguous is classified mismatched
and every value column is set to missing_val. -/
theorem gprim_C3_ambiguous_mismatched :
    (∀ t ∈ MATCH_ALLELES,
      (t.1, t.2.1) ∈ VALID_SNPS ∧ (t.2.2.1, t.2.2.2) ∈ VALID_SNPS) ∧
    (∀ (k : String) (a1 a2 b1 b2 : Char) (vs : List Rat) (signed : Bool)
        (mv : Rat) (ncols : Nat),
      STRAND_AMBIGUOUS (a1.toUpper, a2.toUpper) = true ∨
        STRAND_AMBIGUOUS (b1.toUpper, b2.toUpper) = true →
      reconcileRow signed mv ncols
          ⟨k, Cell.ch a1 :: Cell.ch a2 :: Cell.ch b1 :: Cell.ch b2
            :: vs.map Cell.num⟩
        = ⟨k, a1, a2, List.replicate ncols mv⟩) := by
  refine ⟨match_alleles_valid, ?_⟩
  intro k a1 a2 b1 b2 vs signed mv ncols h
  have hnot : ¬ upper4 a1 a2 b1 b2 ∈ MATCH_ALLELES := by
    intro hmem
    rcases match_alleles_not_ambiguous _ hmem with ⟨h1, h2⟩
    rcases h with h | h
    · rw [show STRAND_AMBIGUOUS (a1.toUpper, a2.toUpper)
          = STRAND_AMBIGUOUS ((upper4 a1 a2 b1 b2).1, (upper4 a1 a2 b1 b2).2.1)
          from rfl] at h
      rw [h1] at h
      exact Bool.false_ne_true h
    · rw [show STRAND_AMBIGUOUS (b1.toUpper, b2.toUpper)
          = STRAND_AMBIGUOUS ((upper4 a1 a2 b1 b2).2.2.1,
              (upper4 a1 a2 b1 b2).2.2.2) from rfl] at h
      rw [h2] at h
      exact Bool.false_ne_true h
  simp [reconcileRow, hnot]

/-- Witness for C3: validity of the pairs of a concrete matched tuple, and
the strand-ambiguous pair A/T against itself masked to missing_val. -/
theorem gprim_C3_ambiguous_mismatched_witness :
    (('A', 'G') ∈ VALID_SNPS ∧ ('G', 'A') ∈ VALID_SNPS) ∧
    reconcileRow true 0 1
        ⟨"rs2", Cell.ch 'A' :: Cell.ch 'T' :: Cell.ch 'A' :: Cell.ch 'T'
          :: ([(3 : Rat)].map Cell.num)⟩
      = ⟨"rs2", 'A', 'T', List.replicate 1 0⟩ :=
  ⟨gprim_C3_ambiguous_mismatched.1 ('A', 'G', 'G', 'A') (by decide),
   gprim_C3_ambiguous_mismatched.2 "rs2" 'A' 'T' 'A' 'T' [3] true 0 1
     (Or.inl (by decide))⟩

theorem match_alleles_bases :
    ∀ t ∈ MATCH_ALLELES,
      t.1 ∈ BASES ∧ t.2.1 ∈ BASES ∧ t.2.2.1 ∈ BASES ∧ t.2.2.2 ∈ BASES := by
  decide

/-- Counterexample to claim C4: a reference allele N (outside the 4-base
alphabet) does not make reconciled_to raise; the joined row is just
classified mismatched and silently masked with missing_val. -/
theorem gprim_C4_counterexample :
    reconciled_to [⟨"rs1", 'N', 'G'⟩] [⟨"rs1", 'N', 'G', [1]⟩] 1 true 0
      = [⟨"rs1", 'N', 'G', [0]⟩] := by
  decide

/-- Claim C4 amended: the complement lookup is defined exactly on
{A, T, C, G} (a lookup of any other character fails), while the
reconciliation classification never raises: a joined row carrying a
character outside the alphabet in any of its four allele cells is
classified mismatched and its value columns are set to missing_val. -/
theorem gprim_C4_amended :
    (∀ c : Char, COMPLEMENT c = none ↔ ¬ c ∈ BASES) ∧
    (∀ (k : String) (a1 a2 b1 b2 : Char) (vs : List Rat) (signed : Bool)
        (mv : Rat) (ncols : Nat),
      ¬ a1.toUpper ∈ BASES ∨ ¬ a2.toUpper ∈ BASES ∨
        ¬ b1.toUpper ∈ BASES ∨ ¬ b2.toUpper ∈ BASES →
      reconcileRow signed mv ncols
          ⟨k, Cell.ch a1 :: Cell.ch a2 :: Cell.ch b1 :: Cell.ch b2
            :: vs.map Cell.num⟩
        = ⟨k, a1, a2, List.replicate ncols mv⟩) := by
  constructor
  · intro c
    unfold COMPLEMENT BASES
    split_ifs with h1 h2 h3 h4 <;> simp [*]
  · intro k a1 a2 b1 b2 vs signed mv ncols h
    have hnot : ¬ upper4 a1 a2 b1 b2 ∈ MATCH_ALLELES := by
      intro hmem
      rcases match_alleles_bases _ hmem with ⟨i1, i2, i3, i4⟩
      rcases h with h | h | h | h
      · exact h i1
      · exact h i2
      · exact h i3
      · exact h i4
    simp [reconcileRow, hnot]

/-- Witness for C4 amended: looking up N in the complement map fails, and
the row rs1 with reference pair N/G is masked to 0. -/
theorem gprim_C4_amended_witness :
    COMPLEMENT 'N' = none ∧
    reconcileRow true 0 1
        ⟨"rs1", Cell.ch 'N' :: Cell.ch 'G' :: Cell.ch 'N' :: Cell.ch 'G'
          :: ([(1 : Rat)].map Cell.num)⟩
      = ⟨"rs1", 'N', 'G', List.replicate 1 0⟩ :=
  ⟨(gprim_C4_amended.1 'N').mpr (by decide),
   gprim_C4_amended.2 "rs1" 'N' 'G' 'N' 'G' [1] true 0 1 (Or.inl (by decide))⟩

/-- Claim C2: on a joined row present in both tables whose tuple matches,
a tuple in FLIP_ALLELES with signed set negates every value column exactly
once; with signed unset the row passes through unchanged; and the concrete
reference (rs1, A, G) against data (rs1, G, A, beta = 0.5) with signed
gives beta = -0.5. -/
theorem gprim_C2_flip_negates :
    (∀ (k : String) (a1 a2 b1 b2 : Char) (vs : List Rat) (mv : Rat)
        (ncols : Nat),
      upper4 a1 a2 b1 b2 ∈ MATCH_ALLELES →
      upper4 a1 a2 b1 b2 ∈ FLIP_ALLELES →
      reconcileRow true mv ncols
          ⟨k, Cell.ch a1 :: Cell.ch a2 :: Cell.ch b1 :: Cell.ch b2
            :: vs.map Cell.num⟩
        = ⟨k, a1, a2, vs.map (fun q => -q)⟩) ∧
    (∀ (k : String) (a1 a2 b1 b2 : Char) (vs : List Rat) (mv : Rat)
        (ncols : Nat),
      upper4 a1 a2 b1 b2 ∈ MATCH_ALLELES →
      reconcileRow false mv ncols
          ⟨k, Cell.ch a1 :: Cell.ch a2 :: Cell.ch b1 :: Cell.ch b2
            :: vs.map Cell.num⟩
        = ⟨k, a1, a2, vs⟩) ∧
    reconciled_to [⟨"rs1", 'A', 'G'⟩] [⟨"rs1", 'G', 'A', [1/2]⟩] 1 true 0
      = [⟨"rs1", 'A', 'G', [-(1/2)]⟩] := by
  refine ⟨?_, ?_, rfl⟩
  · intro k a1 a2 b1 b2 vs mv ncols hm hf
    simp [reconcileRow, hm, hf, List.map_map, Function.comp_def, cellToRat]
  · intro k a1 a2 b1 b2 vs mv ncols hm
    simp [reconcileRow, hm, List.map_map, Function.comp_def, cellToRat]

/-- Witness for C2 on the flipped tuple (A, G, G, A) with one value
column. -/
theorem gprim_C2_flip_negates_witness :
    reconcileRow true 0 1
        ⟨"w", Cell.ch 'A' :: Cell.ch 'G' :: Cell.ch 'G' :: Cell.ch 'A'
          :: ([(1 : Rat)].map Cell.num)⟩
      = ⟨"w", 'A', 'G', [(1 : Rat)].map (fun q => -q)⟩ :=
  gprim_C2_flip_negates.1 "w" 'A' 'G' 'G' 'A' [1] 0 1 (by decide) (by decide)

/-- Claim C5: with fail_if_nonmatching set, a failed fast-path check (some
secondary frame, after the in-place drop, does not carry the same keys in
the same order as the primary) makes smart_merge abort with
AlignmentExpectationError instead of falling back to the key join. -/
theorem gprim_C5_fail_if_nonmatching {α : Type} (x : Table α)
    (y : List (Table α)) (how : How) (drop_from_y : List Nat) (na : α)
    (h : ∃ d ∈ y.map (dropColsTable drop_from_y), ¬ keysOf x = keysOf d) :
    (smart_merge x y how true drop_from_y na).2
      = Except.error MergeError.AlignmentExpectationError := by
  obtain ⟨d, hd, hne⟩ := h
  have hall : (y.map (dropColsTable drop_from_y)).all
      (fun d => keysOf x == keysOf d) = false := by
    cases hfl : (y.map (dropColsTable drop_from_y)).all
        (fun d => keysOf x == keysOf d)
    · rfl
    · rw [List.all_eq_true] at hfl
      have hb := hfl d hd
      rw [beq_iff_eq] at hb
      exact absurd hb hne
  simp [smart_merge, hall]

/-- Witness for C5: two frames of equal length and key order rs1, rs2
against rs1, rs3 with fail_if_nonmatching abort the merge. -/
theorem gprim_C5_fail_if_nonmatching_witness :
    (smart_merge (α := Rat) ⟨1, [⟨"rs1", [5]⟩, ⟨"rs2", [6]⟩]⟩
      [⟨1, [⟨"rs1", [7]⟩, ⟨"rs3", [8]⟩]⟩] How.inner true [] 0).2
      = Except.error MergeError.AlignmentExpectationError :=
  gprim_C5_fail_if_nonmatching ⟨1, [⟨"rs1", [5]⟩, ⟨"rs2", [6]⟩]⟩
    [⟨1, [⟨"rs1", [7]⟩, ⟨"rs3", [8]⟩]⟩] How.inner [] 0
    ⟨⟨1, [⟨"rs1", [7]⟩, ⟨"rs3", [8]⟩]⟩, by decide, by decide⟩

theorem keysOf_dropColsTable (drop : List Nat) (t : Table α) :
    keysOf (dropColsTable drop t) = keysOf t := by
  simp [keysOf, dropColsTable, List.map_map]

theorem keysOf_length_eq {α : Type} {x d : Table α}
    (h : keysOf d = keysOf x) : d.rows.length = x.rows.length := by
  have hl := congrArg List.length h
  simpa [keysOf] using hl

theorem zip_getD {α : Type} :
    ∀ (xs ds : List (MRow α)) (i : Nat), ds.length = xs.length →
      (List.zipWith (fun r s => MRow.mk r.key (r.vals ++ s.vals)) xs ds).getD i
          dfltRow
        = MRow.mk ((xs.getD i dfltRow).key)
            ((xs.getD i dfltRow).vals ++ (ds.getD i dfltRow).vals) := by
  intro xs
  induction xs with
  | nil =>
    intro ds i h
    cases ds with
    | nil => simp [dfltRow]
    | cons d ds => simp at h
  | cons x xs ih =>
    intro ds i h
    cases ds with
    | nil => simp at h
    | cons d ds =>
      cases i with
      | zero => simp
      | succ n =>
        simp only [List.zipWith_cons_cons, List.getD_cons_succ]
        exact ih ds n (by simpa using h)

theorem concat2_keys {α : Type} {x d : Table α} (h : keysOf d = keysOf x) :
    keysOf (concat2 x d) = keysOf x := by
  show (List.zipWith (fun r s => MRow.mk r.key (r.vals ++ s.vals))
      x.rows d.rows).map MRow.key = x.rows.map MRow.key
  exact map_zipWith_left (fun r s => MRow.mk r.key (r.vals ++ s.vals))
    MRow.key MRow.key (fun r s => rfl) x.rows d.rows (keysOf_length_eq h)

/-- The fast path of smart_merge, characterised positionally: the fold of
column-wise concatenations keeps the keys of the primary frame and appends,
row by row, the cells of every secondary frame. -/
theorem foldl_concat2_spec {α : Type} :
    ∀ (ys : List (Table α)) (x : Table α),
      (∀ d ∈ ys, keysOf d = keysOf x) →
      keysOf (ys.foldl concat2 x) = keysOf x ∧
      ∀ i : Nat,
        (ys.foldl concat2 x).rows.getD i dfltRow
          = MRow.mk ((x.rows.getD i dfltRow).key)
              ((x.rows.getD i dfltRow).vals
                ++ (ys.map (fun d => (d.rows.getD i dfltRow).vals)).flatten) := by
  intro ys
  induction ys with
  | nil =>
    intro x h
    refine ⟨rfl, ?_⟩
    intro i
    simp
  | cons d ds ih =>
    intro x h
    have hd : keysOf d = keysOf x := h d (by simp)
    have hlen : d.rows.length = x.rows.length := keysOf_length_eq hd
    have hkeys : keysOf (concat2 x d) = keysOf x := concat2_keys hd
    have hds : ∀ e ∈ ds, keysOf e = keysOf (concat2 x d) := by
      intro e he
      rw [hkeys]
      exact h e (by simp [he])
    obtain ⟨ihk, ihg⟩ := ih (concat2 x d) hds
    refine ⟨by rw [List.foldl_cons, ihk, hkeys], ?_⟩
    intro i
    rw [List.foldl_cons, ihg i]
    have hz := zip_getD x.rows d.rows i hlen
    show MRow.mk (((concat2 x d).rows.getD i dfltRow).key)
        (((concat2 x d).rows.getD i dfltRow).vals ++ _) = _
    rw [show (concat2 x d).rows
        = List.zipWith (fun r s => MRow.mk r.key (r.vals ++ s.vals))
            x.rows d.rows from rfl, hz]
    simp [List.append_assoc]

/-- Claim C6: when every secondary frame carries the same keys in the same
order as the primary, smart_merge succeeds with the column-wise
concatenation: the keys and row order of the primary, each row extended by
the corresponding rows of the secondaries (after the in-place drop). -/
theorem gprim_C6_fast_path {α : Type} (x : Table α) (y : List (Table α))
    (how : How) (fail_if_nonmatching : Bool) (drop_from_y : List Nat) (na : α)
    (h : ∀ d ∈ y, keysOf d = keysOf x) :
    ∃ t, (smart_merge x y how fail_if_nonmatching drop_from_y na).2
        = Except.ok t ∧
      keysOf t = keysOf x ∧
      t.rows.length = x.rows.length ∧
      ∀ i : Nat, t.rows.getD i dfltRow
        = MRow.mk ((x.rows.getD i dfltRow).key)
            ((x.rows.getD i dfltRow).vals
              ++ (y.map (fun d =>
                  ((dropColsTable drop_from_y d).rows.getD i dfltRow).vals)).flatten) := by
  have h2 : ∀ d ∈ y.map (dropColsTable drop_from_y), keysOf d = keysOf x := by
    intro d hd
    rw [List.mem_map] at hd
    obtain ⟨e, he, rfl⟩ := hd
    rw [keysOf_dropColsTable]
    exact h e he
  have hall : (y.map (dropColsTable drop_from_y)).all
      (fun d => keysOf x == keysOf d) = true := by
    rw [List.all_eq_true]
    intro d hd
    rw [beq_iff_eq]
    exact (h2 d hd).symm
  obtain ⟨hk, hg⟩ := foldl_concat2_spec (y.map (dropColsTable drop_from_y)) x h2
  refine ⟨(y.map (dropColsTable drop_from_y)).foldl concat2 x, ?_, hk, ?_, ?_⟩
  · simp [smart_merge, hall]
  · have := congrArg List.length hk
    simpa [keysOf] using this
  · intro i
    rw [hg i, List.map_map]
    rfl

/-- Witness for C6: one secondary frame with matching key column rs1
concatenates column-wise. -/
theorem gprim_C6_fast_path_witness :
    ∃ t, (smart_merge (α := Rat) ⟨1, [⟨"rs1", [2]⟩]⟩ [⟨1, [⟨"rs1", [3]⟩]⟩]
        How.inner true [] 0).2 = Except.ok t ∧
      keysOf t = keysOf (⟨1, [⟨"rs1", [2]⟩]⟩ : Table Rat) ∧
      t.rows.length = (⟨1, [⟨"rs1", [2]⟩]⟩ : Table Rat).rows.length ∧
      ∀ i : Nat, t.rows.getD i dfltRow
        = MRow.mk (((⟨1, [⟨"rs1", [2]⟩]⟩ : Table Rat).rows.getD i dfltRow).key)
            (((⟨1, [⟨"rs1", [2]⟩]⟩ : Table Rat).rows.getD i dfltRow).vals
              ++ (([⟨1, [⟨"rs1", [3]⟩]⟩] : List (Table Rat)).map (fun d =>
                  ((dropColsTable [] d).rows.getD i dfltRow).vals)).flatten) :=
  gprim_C6_fast_path ⟨1, [⟨"rs1", [2]⟩]⟩ [⟨1, [⟨"rs1", [3]⟩]⟩]
    How.inner true [] 0 (by decide)

/-- Claim C9: the only in-place effect of the source, the column drop on
the secondary frames of smart_merge, is the identity for the empty drop
list, and reconciled_to passes a freshly selected frame: neither the
reference rows nor the data rows a caller hands to reconciled_to are
modified. -/
theorem gprim_C9_no_mutation {α : Type} (x : Table α) (y : List (Table α))
    (how : How) (fail_if_nonmatching : Bool) (na : α) (ref : List RefRow)
    (df : List DataRow) (ncols : Nat) :
    (smart_merge x y how fail_if_nonmatching [] na).1 = y ∧
    (smart_merge (refToTable ref) [dfSelect ncols df] How.left false []
        Cell.na).1 = [dfSelect ncols df] := by
  have hfun : dropColsTable ([] : List Nat) = (fun t : Table α => t) :=
    funext dropColsTable_nil
  constructor
  · simp [smart_merge, hfun]
  · simp [smart_merge, dropColsTable_nil]

theorem reconcileRow_proj (signed : Bool) (mv : Rat) (ncols : Nat) (j : JRow) :
    ((reconcileRow signed mv ncols (jrowToM ncols j)).key,
     (reconcileRow signed mv ncols (jrowToM ncols j)).a1,
     (reconcileRow signed mv ncols (jrowToM ncols j)).a2)
      = (j.key, j.a1, j.a2) := by
  rcases j with ⟨k, a1, a2, dat⟩
  rcases dat with _ | ⟨b1, b2, vs⟩
  · rfl
  · simp only [jrowToM, List.cons_append, List.nil_append, reconcileRow]
    split_ifs <;> rfl

theorem filter_key_small (df : List DataRow) (k : String)
    (h : (df.map DataRow.key).Nodup) :
    df.filter (fun d => d.key == k) = [] ∨
    ∃ d, df.filter (fun d => d.key == k) = [d] := by
  induction df with
  | nil => exact Or.inl rfl
  | cons d ds ih =>
    rw [List.map_cons, List.nodup_cons] at h
    obtain ⟨hnin, hnd⟩ := h
    rw [List.filter_cons]
    by_cases hk : d.key == k
    · rw [if_pos hk]
      refine Or.inr ⟨d, ?_⟩
      have hnil : ds.filter (fun e => e.key == k) = [] := by
        rw [List.filter_eq_nil_iff]
        intro e he hek
        apply hnin
        rw [beq_iff_eq] at hk hek
        have hed : e.key = d.key := by rw [hek, hk]
        rw [← hed]
        exact List.mem_map_of_mem DataRow.key he
      rw [hnil]
    · rw [if_neg hk]
      exact ih hnd

theorem joinRows_proj (ref : List RefRow) (df : List DataRow)
    (h : (df.map DataRow.key).Nodup) :
    (joinRows ref df).map (fun j => (j.key, j.a1, j.a2))
      = ref.map (fun r => (r.key, r.a1, r.a2)) := by
  unfold joinRows
  by_cases hk : ref.map RefRow.key = df.map DataRow.key
  · rw [if_pos hk]
    have hlen : df.length = ref.length := by
      have hl := congrArg List.length hk
      simpa using hl.symm
    exact map_zipWith_left
      (fun r d => JRow.mk r.key r.a1 r.a2 (some (d.a1, d.a2, d.vals)))
      (fun j => (j.key, j.a1, j.a2)) (fun r => (r.key, r.a1, r.a2))
      (fun r d => rfl) ref df hlen
  · rw [if_neg hk, List.map_flatMap]
    apply flatMap_singleton_of
    intro r hr
    rcases filter_key_small df r.key h with hnil | ⟨d, hd⟩
    · rw [hnil]
      simp
    · rw [hd]
      simp

/-- Counterexample to claim C1: a data frame with a duplicated key makes
the left join produce one output row per duplicate, so the result is
longer than the reference frame. -/
theorem gprim_C1_counterexample :
    (reconciled_to [⟨"rs1", 'A', 'G'⟩]
        [⟨"rs1", 'A', 'G', [1]⟩, ⟨"rs1", 'A', 'G', [2]⟩] 1 true 0).length
      ≠ ([⟨"rs1", 'A', 'G'⟩] : List RefRow).length := by
  decide

/-- Claim C1 amended: when the keys of the data frame are pairwise
distinct, the frame reconciled_to returns has exactly the row count and
the row order (key and alleles, row by row) of the reference frame. -/
theorem gprim_C1_amended (ref : List RefRow) (df : List DataRow) (ncols : Nat)
    (signed : Bool) (mv : Rat) (h : (df.map DataRow.key).Nodup) :
    (reconciled_to ref df ncols signed mv).length = ref.length ∧
    (reconciled_to ref df ncols signed mv).map (fun o => (o.key, o.a1, o.a2))
      = ref.map (fun r => (r.key, r.a1, r.a2)) := by
  have hmap : (reconciled_to ref df ncols signed mv).map
      (fun o => (o.key, o.a1, o.a2)) = ref.map (fun r => (r.key, r.a1, r.a2)) := by
    unfold reconciled_to
    rw [joinedRows_eq, List.map_map, List.map_map, ← joinRows_proj ref df h]
    apply List.map_congr_left
    intro j hj
    exact reconcileRow_proj signed mv ncols j
  refine ⟨?_, hmap⟩
  have hl := congrArg List.length hmap
  simpa using hl

/-- Witness for C1 amended at a two-row reference and a one-row data frame
with distinct keys. -/
theorem gprim_C1_amended_witness :
    (reconciled_to [⟨"rs1", 'A', 'G'⟩, ⟨"rs9", 'C', 'T'⟩]
        [⟨"rs9", 'T', 'C', [4]⟩] 1 true 0).length
      = ([⟨"rs1", 'A', 'G'⟩, ⟨"rs9", 'C', 'T'⟩] : List RefRow).length ∧
    (reconciled_to [⟨"rs1", 'A', 'G'⟩, ⟨"rs9", 'C', 'T'⟩]
        [⟨"rs9", 'T', 'C', [4]⟩] 1 true 0).map (fun o => (o.key, o.a1, o.a2))
      = ([⟨"rs1", 'A', 'G'⟩, ⟨"rs9", 'C', 'T'⟩] : List RefRow).map
          (fun r => (r.key, r.a1, r.a2)) :=
  gprim_C1_amended [⟨"rs1", 'A', 'G'⟩, ⟨"rs9", 'C', 'T'⟩]
    [⟨"rs9", 'T', 'C', [4]⟩] 1 true 0 (by decide)

theorem valid_diag :
    ∀ p ∈ VALID_SNPS, (p.1, p.2, p.1, p.2) ∈ MATCH_ALLELES ∧
      ¬ (p.1, p.2, p.1, p.2) ∈ FLIP_ALLELES := by
  decide

theorem reconcileRow_diag (signed : Bool) (mv : Rat) (ncols : Nat)
    (k : String) (a1 a2 : Char) (vs : List Rat)
    (hv : (a1.toUpper, a2.toUpper) ∈ VALID_SNPS) :
    reconcileRow signed mv ncols
        ⟨k, Cell.ch a1 :: Cell.ch a2 :: Cell.ch a1 :: Cell.ch a2
          :: vs.map Cell.num⟩
      = ⟨k, a1, a2, vs⟩ := by
  obtain ⟨hm, hf⟩ := valid_diag _ hv
  have hm4 : upper4 a1 a2 a1 a2 ∈ MATCH_ALLELES := hm
  have hf4 : ¬ upper4 a1 a2 a1 a2 ∈ FLIP_ALLELES := hf
  simp [reconcileRow, hm4, hf4, List.map_map, Function.comp_def, cellToRat]

theorem rowMasks_diag (ncols : Nat) (k : String) (a1 a2 : Char)
    (vs : List Rat) (hv : (a1.toUpper, a2.toUpper) ∈ VALID_SNPS) :
    rowMissing (jrowToM ncols ⟨k, a1, a2, some (a1, a2, vs)⟩) = false ∧
    rowMatch (jrowToM ncols ⟨k, a1, a2, some (a1, a2, vs)⟩) = true ∧
    rowFlip (jrowToM ncols ⟨k, a1, a2, some (a1, a2, vs)⟩) = false := by
  obtain ⟨hm, hf⟩ := valid_diag _ hv
  have hm4 : upper4 a1 a2 a1 a2 ∈ MATCH_ALLELES := hm
  have hf4 : ¬ upper4 a1 a2 a1 a2 ∈ FLIP_ALLELES := hf
  have ht : rowTuple (jrowToM ncols ⟨k, a1, a2, some (a1, a2, vs)⟩)
      = some (upper4 a1 a2 a1 a2) := rfl
  have hmiss : rowMissing (jrowToM ncols ⟨k, a1, a2, some (a1, a2, vs)⟩)
      = false := rfl
  refine ⟨hmiss, ?_, ?_⟩
  · rw [rowMatch, hmiss, ht]
    simp [hm4]
  · rw [rowFlip, rowMatch, hmiss, ht]
    simp [hf4]

/-- Counterexample to claim C7: copying the reference row rs2 whose pair
A/T is strand ambiguous does not round-trip: the value 3/10 comes back as
the missing value 0 and the row is counted as a mismatch. -/
theorem gprim_C7_counterexample :
    reconciled_to [⟨"rs2", 'A', 'T'⟩] [⟨"rs2", 'A', 'T', [3/10]⟩] 1 true 0
      = [⟨"rs2", 'A', 'T', [0]⟩] ∧
    n_mismatch [⟨"rs2", 'A', 'T'⟩] [⟨"rs2", 'A', 'T', [3/10]⟩] 1 = 1 := by
  constructor
  · decide
  · decide

/-- Claim C7 amended: for a reference frame all of whose uppercased allele
pairs are valid SNPs, reconciling a data frame built by copying the
reference rows (same keys and alleles, values attached) returns the values
unchanged, with zero mismatched rows and zero flipped rows. -/
theorem gprim_C7_amended (ref : List RefRow) (valss : List (List Rat))
    (ncols : Nat) (signed : Bool) (mv : Rat)
    (hlen : valss.length = ref.length)
    (hvalid : ∀ r ∈ ref, (r.a1.toUpper, r.a2.toUpper) ∈ VALID_SNPS) :
    reconciled_to ref
        (List.zipWith (fun (r : RefRow) vs => DataRow.mk r.key r.a1 r.a2 vs)
          ref valss) ncols signed mv
      = List.zipWith (fun (r : RefRow) vs => OutRow.mk r.key r.a1 r.a2 vs)
          ref valss ∧
    n_mismatch ref
        (List.zipWith (fun (r : RefRow) vs => DataRow.mk r.key r.a1 r.a2 vs)
          ref valss) ncols = 0 ∧
    n_flip ref
        (List.zipWith (fun (r : RefRow) vs => DataRow.mk r.key r.a1 r.a2 vs)
          ref valss) ncols = 0 := by
  set df := List.zipWith (fun (r : RefRow) vs => DataRow.mk r.key r.a1 r.a2 vs)
    ref valss with hdf
  have hkeys : ref.map RefRow.key = df.map DataRow.key := by
    rw [hdf]
    exact (map_zipWith_left
      (fun (r : RefRow) vs => DataRow.mk r.key r.a1 r.a2 vs)
      DataRow.key RefRow.key (fun r vs => rfl) ref valss hlen).symm
  have hjoin : joinRows ref df
      = List.zipWith (fun (r : RefRow) vs =>
          JRow.mk r.key r.a1 r.a2 (some (r.a1, r.a2, vs))) ref valss := by
    unfold joinRows
    rw [if_pos hkeys, hdf, zipWith_zipWith_same]
  refine ⟨?_, ?_, ?_⟩
  · unfold reconciled_to
    rw [joinedRows_eq, List.map_map, hjoin, List.map_zipWith]
    exact zipWith_congr_left ref valss (fun r hr vs =>
      reconcileRow_diag signed mv ncols r.key r.a1 r.a2 vs (hvalid r hr))
  · unfold n_mismatch
    rw [joinedRows_eq, List.countP_map, hjoin]
    apply countP_zipWith_zero
    intro r hr vs
    obtain ⟨h1, h2, h3⟩ := rowMasks_diag ncols r.key r.a1 r.a2 vs (hvalid r hr)
    simp [Function.comp_def, h1, h2]
  · unfold n_flip
    rw [joinedRows_eq, List.countP_map, hjoin]
    apply countP_zipWith_zero
    intro r hr vs
    obtain ⟨h1, h2, h3⟩ := rowMasks_diag ncols r.key r.a1 r.a2 vs (hvalid r hr)
    simp [Function.comp_def, h3]

/-- Witness for C7 amended at the one-row reference rs1 with pair A/G and
value 5. -/
theorem gprim_C7_amended_witness :
    reconciled_to [⟨"rs1", 'A', 'G'⟩]
        (List.zipWith (fun (r : RefRow) vs => DataRow.mk r.key r.a1 r.a2 vs)
          [⟨"rs1", 'A', 'G'⟩] [[5]]) 1 true 0
      = List.zipWith (fun (r : RefRow) vs => OutRow.mk r.key r.a1 r.a2 vs)
          [⟨"rs1", 'A', 'G'⟩] [[5]] ∧
    n_mismatch [⟨"rs1", 'A', 'G'⟩]
        (List.zipWith (fun (r : RefRow) vs => DataRow.mk r.key r.a1 r.a2 vs)
          [⟨"rs1", 'A', 'G'⟩] [[5]]) 1 = 0 ∧
    n_flip [⟨"rs1", 'A', 'G'⟩]
        (List.zipWith (fun (r : RefRow) vs => DataRow.mk r.key r.a1 r.a2 vs)
          [⟨"rs1", 'A', 'G'⟩] [[5]]) 1 = 0 :=
  gprim_C7_amended [⟨"rs1", 'A', 'G'⟩] [[5]] 1 true 0 (by decide) (by decide)
